import Mathlib

/- Verification development for the basic-agent repository.

   Shallow embedding of the pure logic of src/tools/terminal.py,
   src/memory.py, src/agent.py and src/tools/file_operations.py.
   Strings are modelled as Lean Strings (lists of characters); the
   interactive console is modelled as a list of response strings, one per
   input() call; the filesystem file for long-term memory is modelled as
   an Option String (missing or contents); subprocess effects are
   abstracted as explicit parameters. -/

/-- Python whitespace (str.strip and the regex class \s, ASCII range):
space, tab, newline, carriage return, vertical tab, form feed. -/
def pyIsSpace (c : Char) : Bool :=
  c == ' ' || c == '\t' || c == '\n' || c == '\r' ||
    c == Char.ofNat 11 || c == Char.ofNat 12

/-- Python str.lower, character by character (ASCII behaviour). -/
def pyLower (s : String) : String := String.mk (s.toList.map Char.toLower)

/-- Python str.strip on a character list: drop whitespace at both ends. -/
def pyStripCL (l : List Char) : List Char :=
  ((l.dropWhile pyIsSpace).reverse.dropWhile pyIsSpace).reverse

/-- Python str.strip. -/
def pyStrip (s : String) : String := String.mk (pyStripCL s.toList)

/-- Whether pat is a prefix of s. -/
def isPrefixCL : List Char → List Char → Bool
  | [], _ => true
  | _ :: _, [] => false
  | a :: as, b :: bs => a == b && isPrefixCL as bs

/-- Whether pat occurs contiguously inside s (Python "pat in s"). -/
def isSubstrCL : List Char → List Char → Bool
  | pat, [] => isPrefixCL pat []
  | pat, s@(_ :: rest) => isPrefixCL pat s || isSubstrCL pat rest

/-- Python "pat in s" on Strings. -/
def containsSub (s pat : String) : Bool := isSubstrCL pat.toList s.toList

/-- Python dict assignment d[k] = v on an insertion-ordered association
list: replace the value in place when the key is present, append
otherwise. -/
def dictInsert : List (String × String) → String → String → List (String × String)
  | [], k, v => [(k, v)]
  | (k0, v0) :: rest, k, v =>
    if k0 = k then (k0, v) :: rest else (k0, v0) :: dictInsert rest k v

/-- Python "\n".join. -/
def joinNl : List String → String
  | [] => ""
  | [x] => x
  | x :: xs => x ++ "\n" ++ joinNl xs

/-- The list [n, n-1, ..., 1]. -/
def descRange : Nat → List Nat
  | 0 => []
  | n + 1 => (n + 1) :: descRange n

/-- First defined element of a list of options. -/
def firstSome {α : Type} : List (Option α) → Option α
  | [] => none
  | some a :: _ => some a
  | none :: rest => firstSome rest

/-- Python s.replace(pat, repl) for a non-empty pat, with explicit fuel
(the call sites always pass a non-empty pattern). -/
def pyReplaceAux : Nat → List Char → List Char → List Char → List Char
  | 0, s, _, _ => s
  | fuel + 1, s, pat, repl =>
    if isPrefixCL pat s && !pat.isEmpty then
      repl ++ pyReplaceAux fuel (s.drop pat.length) pat repl
    else
      match s with
      | [] => []
      | c :: rest => c :: pyReplaceAux fuel rest pat repl

/-- Python s.replace(pat, repl). -/
def pyReplace (s pat repl : String) : String :=
  String.mk (pyReplaceAux (s.toList.length + 1) s.toList pat.toList repl.toList)

/-- Split s at the first occurrence of sep, returning the parts before and
after it. -/
def splitOnceCL : List Char → List Char → Option (List Char × List Char)
  | [], sep => if isPrefixCL sep [] && !sep.isEmpty then some ([], []) else none
  | s@(c :: rest), sep =>
    if isPrefixCL sep s && !sep.isEmpty then some ([], s.drop sep.length)
    else (splitOnceCL rest sep).map (fun pr => (c :: pr.1, pr.2))

/-- Python s.split(sep) for a non-empty sep, with explicit fuel. -/
def pySplitCL : Nat → List Char → List Char → List (List Char)
  | 0, s, _ => [s]
  | fuel + 1, s, sep =>
    match splitOnceCL s sep with
    | none => [s]
    | some (before, after) => before :: pySplitCL fuel after sep

/-- Python s.split(sep), sep non-empty. -/
def pySplit (s sep : String) : List String :=
  (pySplitCL (s.toList.length + 1) s.toList sep.toList).map String.mk

/-- Python s[-cap:]: for cap = 0 this is the whole string (s[0:]), for
cap > 0 the last cap characters. -/
def pyTailSlice (cap : Nat) (s : String) : String :=
  if cap = 0 then s else String.mk (s.toList.drop (s.toList.length - cap))

/-- Python str.title on a character list; the Bool records whether the
previous character was a letter (cased). -/
def pyTitleCL : Bool → List Char → List Char
  | _, [] => []
  | prevAlpha, c :: rest =>
    (if c.isAlpha then (if prevAlpha then c.toLower else c.toUpper) else c) ::
      pyTitleCL c.isAlpha rest

/-- Python str.title. -/
def pyTitle (s : String) : String := String.mk (pyTitleCL false s.toList)

/- A small backtracking matcher for the fragment of Python regular
   expressions used by the repository: literals, single character classes,
   greedy plus and star over a character class, the lazy wildcard
   repetition ".*?" (the dot does not match a newline), and the quoted
   pattern of a quote class, a lazy body and a backreference to the
   opening quote. Candidate consumptions
   are enumerated in the backtracking preference order of the Python
   engine: longest first for greedy operators, shortest first for lazy
   ones; a whole match is the first success, which matches the leftmost
   starting position with the preferred extent. -/

/-- The Python regex class \w restricted to ASCII: letters, digits and
underscore. -/
def isWordChar (c : Char) : Bool := c.isAlphanum || c == '_'

/-- A single or double quote (the class followed by a backreference in the
argument grammar). -/
def isQuoteChar (c : Char) : Bool := c == '"' || c == Char.ofNat 39

inductive RE where
  | lit (s : List Char)
  | clsOne (p : Char → Bool)
  | clsPlus (p : Char → Bool) (capture : Bool)
  | clsStar (p : Char → Bool) (capture : Bool)
  | dotStarLazy (capture : Bool)
  | quotedLazy

/-- All ways one regex element can consume a prefix of cs, as pairs of the
captures it produces and the remaining suffix, in backtracking preference
order. -/
def splitsFor : RE → List Char → List (List (List Char) × List Char)
  | .lit s, cs => if isPrefixCL s cs then [([], cs.drop s.length)] else []
  | .clsOne _, [] => []
  | .clsOne p, c :: rest => if p c then [([], rest)] else []
  | .clsPlus p cap, cs =>
    (descRange (cs.takeWhile p).length).map
      (fun k => (if cap then [cs.take k] else [], cs.drop k))
  | .clsStar p cap, cs =>
    ((descRange (cs.takeWhile p).length).map
      (fun k => (if cap then [cs.take k] else [], cs.drop k))) ++
      [(if cap then [[]] else [], cs)]
  | .dotStarLazy cap, cs =>
    (List.range ((cs.takeWhile (fun c => !(c == '\n'))).length + 1)).map
      (fun k => (if cap then [cs.take k] else [], cs.drop k))
  | .quotedLazy, [] => []
  | .quotedLazy, q :: rest =>
    if isQuoteChar q then
      (List.range ((rest.takeWhile (fun c => !(c == '\n'))).length + 1)).filterMap
        (fun k =>
          match rest.drop k with
          | q2 :: rest2 => if q2 == q then some ([[q], rest.take k], rest2) else none
          | [] => none)
    else []

/-- Match a sequence of regex elements against a prefix of cs, returning
the captures and the unconsumed suffix of the first (preferred) full
match. The fuel only needs to exceed the number of elements. -/
def matchSeq : Nat → List RE → List Char → Option (List (List Char) × List Char)
  | 0, _, _ => none
  | _ + 1, [], cs => some ([], cs)
  | fuel + 1, re :: res, cs =>
    firstSome ((splitsFor re cs).map
      (fun pr => (matchSeq fuel res pr.2).map (fun r => (pr.1 ++ r.1, r.2))))

/-- Match a whole pattern at the start of cs. -/
def matchRE (pats : List RE) (cs : List Char) : Option (List (List Char) × List Char) :=
  matchSeq (pats.length + 1) pats cs

/-- Python re.search: try every start position left to right and return the
captures and the suffix after the match end of the first match. -/
def reSearchS : List RE → List Char → Option (List (List Char) × List Char)
  | pats, [] => matchRE pats []
  | pats, s@(_ :: rest) =>
    match matchRE pats s with
    | some r => some r
    | none => reSearchS pats rest

/-- Python re.findall: repeatedly search and continue after each match end
(every pattern used here consumes at least one character per match). -/
def findAllAux : Nat → List RE → List Char → List (List (List Char))
  | 0, _, _ => []
  | fuel + 1, pats, cs =>
    match reSearchS pats cs with
    | none => []
    | some (caps, rest) =>
      if rest.length < cs.length then caps :: findAllAux fuel pats rest
      else [caps]

/-- Python re.findall over cs. -/
def findAll (pats : List RE) (cs : List Char) : List (List (List Char)) :=
  findAllAux (cs.length + 1) pats cs

/- Embedding of src/tools/terminal.py. -/

/-- The destructive_patterns table of TerminalTool._is_destructive_command
(the source writes some entries with a doubled backslash, so e.g. "rm\\t"
is the three characters r, m, backslash followed by t, not a tab). -/
def destructive_patterns : List String :=
  ["rm ", "rm\\t", "rmdir", "mv ", "mv\\t", "dd ", "dd\\t", "shred", "wipe",
   "format", "mkfs", "> ", ">\\t", "truncate", "chown", "chmod 000", "chmod 777"]

/-- TerminalTool._is_destructive_command: any pattern occurs in the lowered,
stripped command. -/
def is_destructive_command (command : String) : Bool :=
  destructive_patterns.any (fun p => containsSub (pyStrip (pyLower command)) p)

inductive RiskTier where
  | low
  | medium
  | high
deriving DecidableEq

/-- The high_risk table of TerminalTool._classify_command_risk. -/
def high_risk : List String :=
  ["rm -rf /", "rm -rf *", "dd if=", "mkfs", "format", "shred", "chmod 777",
   "chmod 000"]

/-- The medium_risk table of TerminalTool._classify_command_risk. -/
def medium_risk : List String := ["rm -rf", "rm -r", "rmdir", "mv ", "rm "]

/-- TerminalTool._classify_command_risk: first substring hit in the high
table wins, then the medium table, otherwise low. The command is lowered
but not stripped. -/
def classify_command_risk (command : String) : RiskTier :=
  if high_risk.any (fun p => containsSub (pyLower command) p) then .high
  else if medium_risk.any (fun p => containsSub (pyLower command) p) then .medium
  else .low

/-- TerminalTool._get_user_confirmation, with the console modelled as the
list of strings that successive input() calls return. "yes"/"y" accepts,
"no"/"n" declines, anything else (including "details"/"d", which prints a
breakdown) re-prompts; end of input (EOFError or KeyboardInterrupt) is
treated as a decline. -/
def getUserConfirmation : List String → Bool
  | [] => false
  | r :: rest =>
    if pyStrip (pyLower r) = "yes" ∨ pyStrip (pyLower r) = "y" then true
    else if pyStrip (pyLower r) = "no" ∨ pyStrip (pyLower r) = "n" then false
    else getUserConfirmation rest

/-- Result of one TerminalTool.execute call. `executed cmds` is a normal
return where cmds lists, in order, every command passed to the underlying
shell-execution primitive _execute_command; `cancelled` means a
UserCancellationError reached the caller and nothing was executed;
`trashed` means the call was routed to the trash-based safe deletion with
the extracted search path, name pattern and day threshold, and nothing was
passed to the shell-execution primitive. -/
inductive Outcome where
  | cancelled
  | executed (cmds : List String)
  | trashed (searchPath namePattern days : String)
deriving DecidableEq

/-- Lines 141-146 and 188-192 of terminal.py (the same duplicated code):
classify the risk (used only for the prompt display), ask for
confirmation, raise UserCancellationError on decline, execute on accept. -/
def confirmThenExecute (command : String) (responses : List String) : Outcome :=
  if getUserConfirmation responses then .executed [command] else .cancelled

/-- The regex of TerminalTool._handle_find_rm_pattern: the literal find,
whitespace, a captured run of non-whitespace (the search path), a lazy
gap, the literal -name, whitespace, a quote, a captured run of non-quote
characters (the name pattern), a quote, a lazy gap, the literal -mtime,
whitespace, a plus sign and a captured digit run (the age in days). -/
def findRmRegex : List RE :=
  [.lit "find".toList, .clsPlus pyIsSpace false,
   .clsPlus (fun c => !(pyIsSpace c)) true,
   .dotStarLazy false, .lit "-name".toList, .clsPlus pyIsSpace false,
   .clsOne isQuoteChar, .clsPlus (fun c => !(isQuoteChar c)) true,
   .clsOne isQuoteChar,
   .dotStarLazy false, .lit "-mtime".toList, .clsPlus pyIsSpace false,
   .lit "+".toList, .clsPlus Char.isDigit true]

/-- re.search of the find+rm regex over the command, returning the
extracted search path, name pattern and day count. -/
def findRmMatch (command : String) : Option (String × String × String) :=
  match reSearchS findRmRegex command.toList with
  | some ([a, b, c], _) => some (String.mk a, String.mk b, String.mk c)
  | _ => none

inductive FindRmChoice where
  | safer
  | proceed
  | cancelRaised
deriving DecidableEq

/-- The choice loop of _handle_find_rm_pattern: "s"/"safer"/"safe" takes
the safe path, "p"/"proceed"/"original" breaks to the normal confirmation
flow, "c"/"cancel" raises UserCancellationError, anything else re-prompts;
end of input also raises UserCancellationError. Returns the choice and the
responses not yet consumed. -/
def findRmChoiceLoop : List String → FindRmChoice × List String
  | [] => (.cancelRaised, [])
  | r :: rest =>
    if pyStrip (pyLower r) = "s" ∨ pyStrip (pyLower r) = "safer" ∨
        pyStrip (pyLower r) = "safe" then (.safer, rest)
    else if pyStrip (pyLower r) = "p" ∨ pyStrip (pyLower r) = "proceed" ∨
        pyStrip (pyLower r) = "original" then (.proceed, rest)
    else if pyStrip (pyLower r) = "c" ∨ pyStrip (pyLower r) = "cancel" then
      (.cancelRaised, rest)
    else findRmChoiceLoop rest

/-- TerminalTool._handle_find_rm_pattern. The whole body sits inside
try/except Exception: pass, and UserCancellationError is a subclass of
Exception, so the cancellations raised inside the try block (the "c"
choice and end of input) are swallowed by the except clause and control
falls through to the normal confirmation flow with the remaining console
responses; only the safer path returns directly from inside the try. -/
def handle_find_rm_pattern (command : String) (responses : List String) : Outcome :=
  match findRmMatch command with
  | some (searchPath, namePattern, days) =>
    match findRmChoiceLoop responses with
    | (.safer, _) => .trashed searchPath namePattern days
    | (.proceed, rest) => confirmThenExecute command rest
    | (.cancelRaised, rest) => confirmThenExecute command rest
  | none => confirmThenExecute command responses

/-- TerminalTool._handle_destructive_command: the find+rm branch is taken
when the raw command contains "find", "rm" and "-exec" as substrings. -/
def handle_destructive_command (command : String) (responses : List String) : Outcome :=
  if containsSub command "find" && containsSub command "rm" &&
      containsSub command "-exec" then
    handle_find_rm_pattern command responses
  else confirmThenExecute command responses

/-- TerminalTool.execute: destructive commands go through the confirmation
negotiator, anything else is executed directly. -/
def terminal_execute (command : String) (responses : List String) : Outcome :=
  if is_destructive_command command then handle_destructive_command command responses
  else .executed [command]

/- Embedding of src/memory.py. -/

/-- The in-memory state of MemoryManager: the short-term transcript, the
long-term key/value store (insertion ordered, as a Python dict), and the
trace of full-store snapshots written to disk by save_long_term_memory,
in order. -/
structure MemoryState where
  shortTerm : String
  longTerm : List (String × String)
  diskWrites : List (List (String × String))
deriving DecidableEq

/-- The search of MemoryManager._extract_important_info. The source
pattern is the raw string r"my name is (\w+)" written with a DOUBLED
backslash, so the regex engine sees an escaped backslash: the pattern
matches the literal text "my name is " followed by a backslash and then
one or more letter-w characters, and the capturing group holds the
backslash and the w-run. This helper implements re.search for exactly
that pattern: leftmost start position, greedy w-run. -/
def nameSearch : List Char → Option (List Char)
  | [] => none
  | s@(_ :: rest) =>
    if isPrefixCL "my name is \\".toList s then
      if ((s.drop "my name is \\".toList.length).takeWhile (fun c => c == 'w')).isEmpty then
        nameSearch rest
      else some ('\\' :: (s.drop "my name is \\".toList.length).takeWhile (fun c => c == 'w'))
    else nameSearch rest

/-- MemoryManager._extract_important_info: when the lowered input contains
"my name is" and the (escaped-backslash) regex matches it, store the
title-cased capture under "user_name" and flush the whole store to disk
via save_long_term_memory; otherwise change nothing. -/
def extract_important_info (ms : MemoryState) (userInput : String) : MemoryState :=
  if containsSub (pyLower userInput) "my name is" then
    match nameSearch (pyLower userInput).toList with
    | some tok =>
      { ms with
        longTerm := dictInsert ms.longTerm "user_name" (pyTitle (String.mk tok)),
        diskWrites := ms.diskWrites ++
          [dictInsert ms.longTerm "user_name" (pyTitle (String.mk tok))] }
    | none => ms
  else ms

/-- The formatted turn appended by MemoryManager.update_memory. -/
def interactionText (userInput agentResponse : String) : String :=
  "\nUser: " ++ userInput ++ "\nAgent: " ++ agentResponse

/-- MemoryManager.update_memory: append the formatted turn, truncate to
the last short_term_cap characters when the accumulated transcript is
longer than the cap, then run the long-term extraction over the user
input. -/
def update_memory (cap : Nat) (ms : MemoryState) (userInput agentResponse : String) :
    MemoryState :=
  extract_important_info
    { ms with
      shortTerm :=
        if cap < (ms.shortTerm ++ interactionText userInput agentResponse).length then
          pyTailSlice cap (ms.shortTerm ++ interactionText userInput agentResponse)
        else ms.shortTerm ++ interactionText userInput agentResponse }
    userInput

/-- One escaped character of json.dumps with ensure_ascii=False: quote and
backslash get a backslash escape, the common control characters get their
short forms, other control characters become \u00xx (lowercase hex), and
everything else is kept as is. -/
def jsonEscapeChar (c : Char) : List Char :=
  if c == '"' then ['\\', '"']
  else if c == '\\' then ['\\', '\\']
  else if c == Char.ofNat 8 then ['\\', 'b']
  else if c == Char.ofNat 12 then ['\\', 'f']
  else if c == '\n' then ['\\', 'n']
  else if c == '\r' then ['\\', 'r']
  else if c == '\t' then ['\\', 't']
  else if c.toNat < 32 then
    ['\\', 'u', '0', '0',
     (if c.toNat / 16 < 10 then Char.ofNat (48 + c.toNat / 16)
      else Char.ofNat (87 + c.toNat / 16)),
     (if c.toNat % 16 < 10 then Char.ofNat (48 + c.toNat % 16)
      else Char.ofNat (87 + c.toNat % 16))]
  else [c]

/-- The body of a JSON string literal for s. -/
def escListCL (l : List Char) : List Char := (l.map jsonEscapeChar).flatten

/-- A JSON string literal for s. -/
def jsonQuoteCL (s : String) : List Char := '"' :: (escListCL s.toList ++ ['"'])

/-- Separator-interspersed concatenation of character lists. -/
def intercalateCL (sep : List Char) : List (List Char) → List Char
  | [] => []
  | [x] => x
  | x :: xs => x ++ sep ++ intercalateCL sep xs

/-- json.dumps(store) with the default separators, as used by
get_memory_context. -/
def jsonDumpsCompact (store : List (String × String)) : String :=
  String.mk (Char.ofNat 123 ::
    (intercalateCL [',', ' ']
      (store.map (fun kv => jsonQuoteCL kv.1 ++ ':' :: ' ' :: jsonQuoteCL kv.2)) ++
      [Char.ofNat 125]))

/-- MemoryManager.get_memory_context: a "Recent conversation" block when
the short-term transcript is non-empty, an "Important information" block
when the long-term store is non-empty, joined with a newline. -/
def get_memory_context (shortTerm : String) (longTerm : List (String × String)) : String :=
  joinNl
    ((if shortTerm = "" then [] else ["Recent conversation: " ++ shortTerm]) ++
     (if longTerm = [] then [] else ["Important information: " ++ jsonDumpsCompact longTerm]))

/- Persistence of the long-term store (MemoryManager.save_long_term_memory
   and MemoryManager._load_long_term_memory). The file on disk is
   modelled as an Option String: none when the path does not exist, some
   contents otherwise. -/

/-- One "  <key>: <value>" member line of json.dump(..., indent=2). -/
def jsonItemCL (kv : String × String) : List Char :=
  ' ' :: ' ' :: (jsonQuoteCL kv.1 ++ ':' :: ' ' :: jsonQuoteCL kv.2)

/-- json.dump(store, f, indent=2, ensure_ascii=False) for a string-valued
object: an empty store prints as a bare brace pair, otherwise one member
per line, comma separated, two-space indent. -/
def jsonDumpIndent2CL (store : List (String × String)) : List Char :=
  match store with
  | [] => [Char.ofNat 123, Char.ofNat 125]
  | _ =>
    Char.ofNat 123 :: '\n' ::
      (intercalateCL [',', '\n'] (store.map jsonItemCL) ++ ['\n', Char.ofNat 125])

/-- MemoryManager.save_long_term_memory: the file contents written for the
store. -/
def save_long_term_memory (store : List (String × String)) : String :=
  String.mk (jsonDumpIndent2CL store)

/-- JSON whitespace accepted between tokens by json.loads. -/
def jsonIsWs (c : Char) : Bool := c == ' ' || c == '\t' || c == '\n' || c == '\r'

/-- Skip JSON whitespace. -/
def skipWs (cs : List Char) : List Char := cs.dropWhile jsonIsWs

/-- Value of one hexadecimal digit. -/
def hexVal (c : Char) : Option Nat :=
  if '0' ≤ c ∧ c ≤ '9' then some (c.toNat - 48)
  else if 'a' ≤ c ∧ c ≤ 'f' then some (c.toNat - 87)
  else if 'A' ≤ c ∧ c ≤ 'F' then some (c.toNat - 55)
  else none

/-- Parse the body of a JSON string literal (the opening quote already
consumed), returning the decoded characters and the rest of the input
after the closing quote. Raw control characters are rejected, as by the
strict json.loads decoder. -/
def parseJsonStringAux : Nat → List Char → Option (List Char × List Char)
  | 0, _ => none
  | _ + 1, [] => none
  | fuel + 1, c :: rest =>
    if c == '"' then some ([], rest)
    else if c == '\\' then
      match rest with
      | [] => none
      | e :: rest2 =>
        match
          (if e == '"' then some ('"', rest2)
           else if e == '\\' then some ('\\', rest2)
           else if e == '/' then some ('/', rest2)
           else if e == 'b' then some (Char.ofNat 8, rest2)
           else if e == 'f' then some (Char.ofNat 12, rest2)
           else if e == 'n' then some ('\n', rest2)
           else if e == 'r' then some ('\r', rest2)
           else if e == 't' then some ('\t', rest2)
           else if e == 'u' then
             match rest2 with
             | h1 :: h2 :: h3 :: h4 :: rest3 =>
               match hexVal h1, hexVal h2, hexVal h3, hexVal h4 with
               | some a, some b, some c2, some d =>
                 some (Char.ofNat (((a * 16 + b) * 16 + c2) * 16 + d), rest3)
               | _, _, _, _ => none
             | _ => none
           else none : Option (Char × List Char))
        with
        | some (ch, rest3) =>
          (parseJsonStringAux fuel rest3).map (fun pr => (ch :: pr.1, pr.2))
        | none => none
    else if c.toNat < 32 then none
    else (parseJsonStringAux fuel rest).map (fun pr => (c :: pr.1, pr.2))

/-- Parse one JSON string literal body (opening quote consumed), with the
fuel computed from the input length. -/
def parseJsonString (cs : List Char) : Option (List Char × List Char) :=
  parseJsonStringAux (cs.length + 1) cs

/-- Parse the members of a JSON object of string values, starting right
after the opening brace (or after a comma), up to and including the
closing brace; returns the key/value pairs in source order and the rest
of the input. -/
def parseMembersAux : Nat → List Char → Option (List (String × String) × List Char)
  | 0, _ => none
  | fuel + 1, cs =>
    match skipWs cs with
    | '"' :: rest =>
      match parseJsonString rest with
      | none => none
      | some (key, rest2) =>
        match skipWs rest2 with
        | ':' :: rest3 =>
          match skipWs rest3 with
          | '"' :: rest4 =>
            match parseJsonString rest4 with
            | none => none
            | some (value, rest5) =>
              match skipWs rest5 with
              | c :: rest6 =>
                if c == ',' then
                  (parseMembersAux fuel rest6).map
                    (fun pr => ((String.mk key, String.mk value) :: pr.1, pr.2))
                else if c == Char.ofNat 125 then
                  some ([(String.mk key, String.mk value)], rest6)
                else none
              | [] => none
          | _ => none
        | _ => none
    | _ => none

/-- Parse an object member list with the fuel computed from the input
length (one unit of fuel per member is enough). -/
def parseMembers (cs : List Char) : Option (List (String × String) × List Char) :=
  parseMembersAux (cs.length + 1) cs

/-- Model of json.loads restricted to the JSON fragment the long-term
store inhabits: a single object whose values are strings (the store is
documented and used as a string-to-string mapping). Returns none exactly
when the decoder raises. -/
def jsonParseObject (cs : List Char) : Option (List (String × String)) :=
  match skipWs cs with
  | c :: rest =>
    if c == Char.ofNat 123 then
      match skipWs rest with
      | c2 :: rest2 =>
        if c2 == Char.ofNat 125 then
          if (skipWs rest2).isEmpty then some [] else none
        else
          match parseMembers rest with
          | some (ms, rest3) => if (skipWs rest3).isEmpty then some ms else none
          | none => none
      | [] => none
    else none
  | [] => none

/-- MemoryManager._load_long_term_memory over the modelled file: a missing
file and a whitespace-only file load as the empty store; otherwise the
stripped contents are decoded, building the dict in source order with
later duplicates overwriting, and a decoding failure raises MemoryError
(modelled as the error case). -/
def load_long_term_memory (file : Option String) :
    Except String (List (String × String)) :=
  match file with
  | none => .ok []
  | some content =>
    if pyStrip content = "" then .ok []
    else
      match jsonParseObject (pyStrip content).toList with
      | some pairs => .ok (pairs.foldl (fun d kv => dictInsert d kv.1 kv.2) [])
      | none => .error "Corrupted long-term memory file"

/- Embedding of the tool-call extraction of src/agent.py
   (BasicAgent._parse_and_execute_tool_calls and
   BasicAgent._parse_tool_arguments, prompt-based mode, dev mode off). -/

/-- The regex TOOL_CALL:\s*(\w+)\((.*?)\) of
_parse_and_execute_tool_calls. -/
def toolCallRegex : List RE :=
  [.lit "TOOL_CALL:".toList, .clsStar pyIsSpace false, .clsPlus isWordChar true,
   .lit "(".toList, .dotStarLazy true, .lit ")".toList]

/-- The re.findall of the tool-call regex: the (name, argument-text) pairs
in order of occurrence. -/
def toolCallMatches (response : String) : List (String × String) :=
  (findAll toolCallRegex response.toList).filterMap
    (fun caps =>
      match caps with
      | [n, a] => some (String.mk n, String.mk a)
      | _ => none)

/-- The regex (\w+)=(["])(.*?)\2 of _parse_tool_arguments, where the class
also accepts a single quote and the backreference requires the closing
quote to equal the opening one. -/
def argRegex : List RE :=
  [.clsPlus isWordChar true, .lit "=".toList, .quotedLazy]

/-- BasicAgent._parse_tool_arguments: findall the key/quote/value triples
and build the argument dict in order. -/
def parse_tool_arguments (argsStr : String) : List (String × String) :=
  (findAll argRegex argsStr.toList).foldl
    (fun d caps =>
      match caps with
      | [k, _q, v] => dictInsert d (String.mk k) (String.mk v)
      | _ => d)
    []

/-- The parsed tool invocations of a model response: each findall match as
the tool name with its parsed arguments (the ToolInvocation units of the
extractor). -/
def extractInvocations (response : String) : List (String × List (String × String)) :=
  (toolCallMatches response).map (fun m => (m.1, parse_tool_arguments m.2))

/-- One iteration of the match loop of _parse_and_execute_tool_calls over
the accumulator (result_parts, remaining_response, executed invocations).
Tool execution is abstracted as execTool, returning either the result
string or the message of a raised exception; known is the registry key
set. An unknown name adds an "Unknown tool" fragment without executing
anything; an execution error adds an error fragment; a successful call
adds its result fragment and strips the invocation text from the
remaining response. -/
def toolCallStep (known : List String)
    (execTool : String → List (String × String) → Except String String)
    (acc : List String × String × List (String × List (String × String)))
    (m : String × String) :
    List String × String × List (String × List (String × String)) :=
  if known.contains m.1 then
    match execTool m.1 (parse_tool_arguments m.2) with
    | .ok toolResult =>
      (acc.1 ++ ["Tool " ++ m.1 ++ " result: " ++ toolResult],
       pyStrip (pyReplace acc.2.1 ("TOOL_CALL: " ++ m.1 ++ "(" ++ m.2 ++ ")") ""),
       acc.2.2 ++ [(m.1, parse_tool_arguments m.2)])
    | .error e =>
      (acc.1 ++ ["Error executing " ++ m.1 ++ ": " ++ e], acc.2.1,
       acc.2.2 ++ [(m.1, parse_tool_arguments m.2)])
  else (acc.1 ++ ["Unknown tool: " ++ m.1], acc.2.1, acc.2.2)

/-- BasicAgent._parse_and_execute_tool_calls: when no TOOL_CALL match is
found the original response is returned unchanged with no invocations;
otherwise the matches are processed in order and the leftover narrative
text, when any remains and differs from the original, is prepended to the
joined result fragments. Returns the final text and the invocations that
were actually executed. -/
def parse_and_execute_tool_calls (known : List String)
    (execTool : String → List (String × String) → Except String String)
    (response : String) :
    String × List (String × List (String × String)) :=
  if (toolCallMatches response).isEmpty then (response, [])
  else
    match (toolCallMatches response).foldl (toolCallStep known execTool)
        ([], response, []) with
    | (parts, remaining, invs) =>
      if remaining ≠ "" ∧ remaining ≠ response then
        (remaining ++ "\n\n" ++ joinNl parts, invs)
      else (joinNl parts, invs)

/- Embedding of the turn flow of BasicAgent.process_user_input (dev mode
   off). The model invocation together with any tool execution it
   triggers is abstracted as an Except value: the produced full response,
   or the exception it raises. Neither processing path touches the
   MemoryManager (both only read the context string computed before), so
   the memory state enters update_memory only after a full response. -/

inductive ProcErr where
  | userCancellation
  | toolError
  | other
deriving DecidableEq

inductive TurnOutcome where
  | responded (text : String)
  | cancelledReport
  | toolErrorReport
  | agentErrorRaised
deriving DecidableEq

/-- BasicAgent.process_user_input: on a full response the memory is
updated and the response shown; a UserCancellationError is caught and
reported as "Operation cancelled by user."; a ToolError is caught and
reported as a tool error message; any other exception is re-raised as
AgentError. In the three exception cases update_memory is never
reached. -/
def process_user_input (cap : Nat) (mem : MemoryState) (userInput : String)
    (processing : Except ProcErr String) : MemoryState × TurnOutcome :=
  match processing with
  | .ok resp => (update_memory cap mem userInput resp, .responded resp)
  | .error .userCancellation => (mem, .cancelledReport)
  | .error .toolError => (mem, .toolErrorReport)
  | .error .other => (mem, .agentErrorRaised)

/- Embedding of safe_delete_files of src/tools/file_operations.py. The
   find subprocess is abstracted by its exit code and stdout; the
   per-file trash move (the Linux branch, whose failures are skipped) is
   abstracted by a success predicate on the attempted path. -/

/-- The candidate file list computed by safe_delete_files: the stripped
stdout, split on the LITERAL two-character sequence backslash-n (the
source calls split on a doubled-backslash string, not on a newline), with
blank entries removed. -/
def parse_find_output (stdout : String) : List String :=
  (if pyStrip stdout = "" then [] else pySplit (pyStrip stdout) "\\n").filter
    (fun f => pyStrip f ≠ "")

/-- safe_delete_files: a failing find or an empty candidate list gives the
"No files found" message; otherwise each candidate is attempted in turn
(the Darwin branch differs and is not modelled: the sandbox platform
family is the Linux branch) and the count of successful moves is
reported. -/
def safe_delete_files (filePattern : String) (findExitCode : Int)
    (findStdout : String) (moveOk : String → Bool) : String :=
  if findExitCode ≠ 0 then "No files found matching pattern: " ++ filePattern
  else if (parse_find_output findStdout).isEmpty then
    "No files found matching pattern: " ++ filePattern
  else
    "Moved " ++ toString ((parse_find_output findStdout).countP moveOk) ++
      " file(s) to Trash"

/- Claim theorems. -/

/-- C1: what the risk classifier actually does on the examples of the
spec. The claim (and the file test_safety.py of the repository itself)
expects "rm -rf /tmp/x"
to classify as medium and "rm file.txt" as low; the substring tables give
high ("rm -rf /" is a substring of "rm -rf /tmp/x") and medium ("rm " is
in the medium table) respectively. The remaining examples behave as
claimed: "rm -rf /" is high, "mv a b" is medium, and "ls -la" is not
destructive. -/
theorem C1_risk_classifier_behavior :
    classify_command_risk "rm -rf /" = RiskTier.high ∧
    classify_command_risk "rm -rf /tmp/x" = RiskTier.high ∧
    classify_command_risk "mv a b" = RiskTier.medium ∧
    classify_command_risk "rm file.txt" = RiskTier.medium ∧
    is_destructive_command "ls -la" = false := by
  refine ⟨by decide, by decide, by decide, by decide, by decide⟩

/-- A destructive command of the find-then-remove-via-exec shape used to
exercise the safer-alternative prompt. -/
def findRmCmd : String :=
  "find /tmp -name \"*.log\" -mtime +30 -exec rm \x7b\x7d \\;"

/-- C3: the command matches the find+rm shape with a name pattern and an
age filter, yet choosing the cancel option does NOT terminate the
negotiation: the UserCancellationError raised by the "c" choice is
swallowed by the surrounding except-Exception clause, control falls
through to the normal confirmation prompt, and a subsequent "yes" makes
the shell-execution primitive run the command. -/
theorem C3_cancel_choice_falls_through :
    findRmMatch findRmCmd = some ("/tmp", "*.log", "30") ∧
    is_destructive_command findRmCmd = true ∧
    terminal_execute findRmCmd ["c", "yes"] = Outcome.executed [findRmCmd] := by
  refine ⟨by decide, by decide, by decide⟩

/-- C6: what the memory extraction actually does. On the input
"My name is Alice" nothing is stored and nothing is written to disk,
because the source regex (raw string with a doubled backslash) only
matches a literal backslash followed by letter-w characters; on the
input "my name is \www" it stores the title-cased capture. -/
theorem C6_name_extraction_behavior :
    extract_important_info ⟨"", [], []⟩ "My name is Alice" = ⟨"", [], []⟩ ∧
    extract_important_info ⟨"", [], []⟩ "my name is alice" = ⟨"", [], []⟩ ∧
    extract_important_info ⟨"", [], []⟩ "my name is \\www" =
      ⟨"", [("user_name", "\\Www")], [[("user_name", "\\Www")]]⟩ := by
  refine ⟨by decide, by decide, by decide⟩

/-- C9: what the safe-delete primitive actually does. A failing find and
an empty candidate list both give the explicit "No files found" message
without an error; but when find reports two matching files on separate
lines, the split on the literal backslash-n sequence leaves ONE candidate
containing the embedded newline, so the two matching files are not moved
individually: the single bogus path fails to move and the batch reports
zero files moved. -/
theorem C9_safe_delete_behavior :
    safe_delete_files "/x" 1 "whatever" (fun _ => true) =
      "No files found matching pattern: /x" ∧
    safe_delete_files "/tmp -name nomatch" 0 "" (fun _ => true) =
      "No files found matching pattern: /tmp -name nomatch" ∧
    parse_find_output "/tmp/a.log\n/tmp/b.log" = ["/tmp/a.log\n/tmp/b.log"] ∧
    safe_delete_files "/tmp -name a" 0 "/tmp/a.log\n/tmp/b.log" (fun _ => false) =
      "Moved 0 file(s) to Trash" := by
  refine ⟨by decide, by decide, by decide, by decide⟩

/-- C10: when the processing of a turn raises a user-cancellation signal
or a tool error, process_user_input catches it after the point where a
full response would have been produced, update_memory is never reached,
and the whole memory state (short-term transcript, long-term store and
disk-write trace) is returned unchanged. -/
theorem C10_turn_atomicity_on_failure (cap : Nat) (mem : MemoryState)
    (userInput : String) (e : ProcErr)
    (h : e = ProcErr.userCancellation ∨ e = ProcErr.toolError) :
    (process_user_input cap mem userInput (.error e)).1 = mem := by
  rcases h with h | h <;> subst h <;> rfl

/-- Closed instance of C10 at a concrete memory state and both abstract
error kinds. -/
theorem C10_turn_atomicity_witness :
    (process_user_input 100 ⟨"s", [("a", "b")], []⟩ "hi"
      (.error ProcErr.userCancellation)).1 = ⟨"s", [("a", "b")], []⟩ ∧
    (process_user_input 100 ⟨"s", [("a", "b")], []⟩ "hi"
      (.error ProcErr.toolError)).1 = ⟨"s", [("a", "b")], []⟩ := by
  exact ⟨C10_turn_atomicity_on_failure 100 ⟨"s", [("a", "b")], []⟩ "hi"
      ProcErr.userCancellation (Or.inl rfl),
    C10_turn_atomicity_on_failure 100 ⟨"s", [("a", "b")], []⟩ "hi"
      ProcErr.toolError (Or.inr rfl)⟩

/-- Unfolding equation for getUserConfirmation on a consumed response. -/
theorem getUserConfirmation_cons (r : String) (rest : List String) :
    getUserConfirmation (r :: rest) =
      (if pyStrip (pyLower r) = "yes" ∨ pyStrip (pyLower r) = "y" then true
       else if pyStrip (pyLower r) = "no" ∨ pyStrip (pyLower r) = "n" then false
       else getUserConfirmation rest) := rfl

/-- C2: a destructive command that does not take the find+rm branch goes
straight to the confirmation prompt; a negative response makes the
negotiator raise the user-cancellation signal with nothing passed to the
shell-execution primitive, and an affirmative response makes it pass
exactly that command, exactly once, to the shell-execution primitive. -/
theorem C2_confirmation_negotiator (cmd r : String) (rest : List String)
    (hd : is_destructive_command cmd = true)
    (hnf : (containsSub cmd "find" && containsSub cmd "rm" &&
      containsSub cmd "-exec") = false) :
    ((pyStrip (pyLower r) = "no" ∨ pyStrip (pyLower r) = "n") →
      terminal_execute cmd (r :: rest) = Outcome.cancelled) ∧
    ((pyStrip (pyLower r) = "yes" ∨ pyStrip (pyLower r) = "y") →
      terminal_execute cmd (r :: rest) = Outcome.executed [cmd]) := by
  constructor
  · intro h
    have hg : getUserConfirmation (r :: rest) = false := by
      rw [getUserConfirmation_cons]
      rcases h with h | h <;> rw [h]
      · rw [if_neg (by decide), if_pos (by decide)]
      · rw [if_neg (by decide), if_pos (by decide)]
    simp [terminal_execute, hd, handle_destructive_command, hnf,
      confirmThenExecute, hg]
  · intro h
    have hg : getUserConfirmation (r :: rest) = true := by
      rw [getUserConfirmation_cons]
      rcases h with h | h <;> rw [h]
      · rw [if_pos (by decide)]
      · rw [if_pos (by decide)]
    simp [terminal_execute, hd, handle_destructive_command, hnf,
      confirmThenExecute, hg]

/-- Closed instance of C2: a destructive command declined and accepted. -/
theorem C2_confirmation_negotiator_witness :
    terminal_execute "rm -rf /data" ["no"] = Outcome.cancelled ∧
    terminal_execute "rm -rf /data" ["yes"] = Outcome.executed ["rm -rf /data"] := by
  exact ⟨(C2_confirmation_negotiator "rm -rf /data" "no" [] (by decide)
      (by decide)).1 (Or.inl (by decide)),
    (C2_confirmation_negotiator "rm -rf /data" "yes" [] (by decide)
      (by decide)).2 (Or.inl (by decide))⟩

/-- The long-term extraction never changes the short-term transcript. -/
theorem extract_shortTerm (ms : MemoryState) (u : String) :
    (extract_important_info ms u).shortTerm = ms.shortTerm := by
  unfold extract_important_info
  split
  · split <;> rfl
  · rfl

/-- The last n characters of a string, as the spec words the retained
suffix ("exactly the last cap characters of the pre-truncation
concatenation"). -/
def lastCharsSpec (n : Nat) (s : String) : String :=
  String.mk (s.toList.drop (s.toList.length - n))

/-- C4: after an update with a positive cap the short-term transcript is
never longer than the cap, and whenever the appended concatenation
exceeds the cap the retained transcript is exactly the last cap
characters of the pre-truncation concatenation. The pre-update transcript
is universally quantified, so this covers every state reachable by a
sequence of updates. -/
theorem C4_short_term_cap (cap : Nat) (hcap : 0 < cap) (ms : MemoryState)
    (u a : String) :
    (update_memory cap ms u a).shortTerm.length ≤ cap ∧
    (cap < (ms.shortTerm ++ interactionText u a).length →
      (update_memory cap ms u a).shortTerm =
        lastCharsSpec cap (ms.shortTerm ++ interactionText u a)) := by
  have hst :
      (update_memory cap ms u a).shortTerm =
        if cap < (ms.shortTerm ++ interactionText u a).length then
          pyTailSlice cap (ms.shortTerm ++ interactionText u a)
        else ms.shortTerm ++ interactionText u a := by
    unfold update_memory
    rw [extract_shortTerm]
  by_cases h : cap < (ms.shortTerm ++ interactionText u a).length
  · have htail :
        pyTailSlice cap (ms.shortTerm ++ interactionText u a) =
          lastCharsSpec cap (ms.shortTerm ++ interactionText u a) := by
      unfold pyTailSlice lastCharsSpec
      rw [if_neg (Nat.pos_iff_ne_zero.mp hcap)]
    constructor
    · rw [hst, if_pos h, htail]
      show ((ms.shortTerm ++ interactionText u a).toList.drop
        ((ms.shortTerm ++ interactionText u a).toList.length - cap)).length ≤ cap
      rw [List.length_drop]
      omega
    · intro _
      rw [hst, if_pos h, htail]
  · constructor
    · rw [hst, if_neg h]
      omega
    · intro hlt
      exact absurd hlt h

/-- Closed instance of C4: a cap of 5 with a turn of 19 characters. -/
theorem C4_short_term_cap_witness :
    (update_memory 5 ⟨"", [], []⟩ "ab" "cd").shortTerm.length ≤ 5 ∧
    (update_memory 5 ⟨"", [], []⟩ "ab" "cd").shortTerm =
      lastCharsSpec 5 ("" ++ interactionText "ab" "cd") := by
  have h := C4_short_term_cap 5 (by decide) ⟨"", [], []⟩ "ab" "cd"
  exact ⟨h.1, h.2 (by decide)⟩

theorem isPrefixCL_append (l t : List Char) : isPrefixCL l (l ++ t) = true := by
  induction l with
  | nil => rfl
  | cons a as ih => simp [isPrefixCL, ih]

theorem isSubstrCL_of_prefix {pat s : List Char} (h : isPrefixCL pat s = true) :
    isSubstrCL pat s = true := by
  cases s with
  | nil => simpa [isSubstrCL] using h
  | cons c rest => simp [isSubstrCL, h]

theorem isSubstrCL_append_left {pat s : List Char} (t : List Char)
    (h : isSubstrCL pat s = true) : isSubstrCL pat (t ++ s) = true := by
  induction t with
  | nil => simpa using h
  | cons c cs ih => simp [isSubstrCL, ih]

theorem isSubstrCL_head (pat ext tail : List Char) :
    isSubstrCL pat ((pat ++ ext) ++ tail) = true := by
  rw [List.append_assoc]
  exact isSubstrCL_of_prefix (isPrefixCL_append _ _)

theorem toList_append (a b : String) : (a ++ b).toList = a.toList ++ b.toList := rfl

/-- C7: the rendered context is empty when both stores are empty, contains
the "Recent conversation:" header whenever the short-term transcript is
non-empty, and contains the "Important information:" header whenever the
long-term store is non-empty. -/
theorem C7_memory_context (st : String) (lt : List (String × String)) :
    (st = "" ∧ lt = [] → get_memory_context st lt = "") ∧
    (st ≠ "" → containsSub (get_memory_context st lt) "Recent conversation:" = true) ∧
    (lt ≠ [] → containsSub (get_memory_context st lt) "Important information:" = true) := by
  have hrecent : "Recent conversation: ".toList =
      "Recent conversation:".toList ++ [' '] := by decide
  have himp : "Important information: ".toList =
      "Important information:".toList ++ [' '] := by decide
  refine ⟨?_, ?_, ?_⟩
  · rintro ⟨h1, h2⟩
    subst h1; subst h2; rfl
  · intro h
    unfold get_memory_context
    rw [if_neg h]
    by_cases hl : lt = []
    · rw [if_pos hl]
      show containsSub ("Recent conversation: " ++ st) "Recent conversation:" = true
      unfold containsSub
      rw [toList_append, hrecent]
      exact isSubstrCL_head _ _ _
    · rw [if_neg hl]
      show containsSub (("Recent conversation: " ++ st) ++ "\n" ++
        ("Important information: " ++ jsonDumpsCompact lt)) "Recent conversation:" = true
      unfold containsSub
      rw [toList_append, toList_append, toList_append, hrecent, List.append_assoc]
      exact isSubstrCL_head _ _ _
  · intro hl
    unfold get_memory_context
    rw [if_neg hl]
    by_cases h : st = ""
    · rw [if_pos h]
      show containsSub ("Important information: " ++ jsonDumpsCompact lt)
        "Important information:" = true
      unfold containsSub
      rw [toList_append, himp]
      exact isSubstrCL_head _ _ _
    · rw [if_neg h]
      show containsSub (("Recent conversation: " ++ st) ++ "\n" ++
        ("Important information: " ++ jsonDumpsCompact lt)) "Important information:" = true
      unfold containsSub
      simp only [toList_append]
      rw [himp]
      exact isSubstrCL_append_left _ (isSubstrCL_head _ _ _)

/-- Closed instance of C7 at an empty and a populated memory. -/
theorem C7_memory_context_witness :
    get_memory_context "" [] = "" ∧
    containsSub (get_memory_context "hi" [("user_name", "Alice")])
      "Recent conversation:" = true ∧
    containsSub (get_memory_context "hi" [("user_name", "Alice")])
      "Important information:" = true := by
  exact ⟨(C7_memory_context "" []).1 ⟨rfl, rfl⟩,
    (C7_memory_context "hi" [("user_name", "Alice")]).2.1 (by decide),
    (C7_memory_context "hi" [("user_name", "Alice")]).2.2 (by decide)⟩

theorem matchSeq_cons_lit (fuel : Nat) (l : List Char) (ps : List RE)
    (cs : List Char) (hp : isPrefixCL l cs = false) :
    matchSeq (fuel + 1) (RE.lit l :: ps) cs = none := by
  simp [matchSeq, splitsFor, hp, firstSome]

theorem matchRE_lit_none (l : List Char) (ps : List RE) (cs : List Char)
    (hp : isPrefixCL l cs = false) : matchRE (RE.lit l :: ps) cs = none :=
  matchSeq_cons_lit (ps.length + 1) l ps cs hp

theorem reSearchS_lit_none (l : List Char) (ps : List RE) :
    ∀ cs, isSubstrCL l cs = false → reSearchS (RE.lit l :: ps) cs = none := by
  intro cs
  induction cs with
  | nil =>
    intro h
    exact matchRE_lit_none l ps [] (by simpa [isSubstrCL] using h)
  | cons c rest ih =>
    intro h
    have h2 : isPrefixCL l (c :: rest) = false ∧ isSubstrCL l rest = false := by
      simpa [isSubstrCL] using h
    simp [reSearchS, matchRE_lit_none l ps (c :: rest) h2.1, ih h2.2]

theorem findAll_of_search_none (pats : List RE) (cs : List Char)
    (h : reSearchS pats cs = none) : findAll pats cs = [] := by
  unfold findAll
  simp [findAllAux, h]

/-- When the response does not contain the text "TOOL_CALL:" the findall
of the tool-call grammar is empty. -/
theorem toolCallMatches_empty (response : String)
    (h : containsSub response "TOOL_CALL:" = false) :
    toolCallMatches response = [] := by
  unfold toolCallMatches
  rw [show toolCallRegex = RE.lit "TOOL_CALL:".toList ::
    [RE.clsStar pyIsSpace false, RE.clsPlus isWordChar true, RE.lit "(".toList,
     RE.dotStarLazy true, RE.lit ")".toList] from rfl]
  rw [findAll_of_search_none _ _ (reSearchS_lit_none _ _ _ h)]
  rfl

/-- C5: the example invocation text parses to exactly one invocation of
list_files with the argument path = "/a/b"; and a response with no
occurrence of "TOOL_CALL:" yields no invocations and is returned by the
extractor unchanged, for any tool registry and any tool behaviour. -/
theorem C5_tool_call_extraction (response : String) (known : List String)
    (execTool : String → List (String × String) → Except String String)
    (h : containsSub response "TOOL_CALL:" = false) :
    extractInvocations "TOOL_CALL: list_files(path=\"/a/b\")" =
      [("list_files", [("path", "/a/b")])] ∧
    extractInvocations response = [] ∧
    parse_and_execute_tool_calls known execTool response = (response, []) := by
  have hm : toolCallMatches response = [] := toolCallMatches_empty response h
  refine ⟨by decide, ?_, ?_⟩
  · unfold extractInvocations
    rw [hm]
    rfl
  · unfold parse_and_execute_tool_calls
    rw [hm]
    rfl

/-- Closed instance of C5 at a plain-text response with a non-trivial
registry and tool behaviour. -/
theorem C5_tool_call_extraction_witness :
    extractInvocations "TOOL_CALL: list_files(path=\"/a/b\")" =
      [("list_files", [("path", "/a/b")])] ∧
    extractInvocations "Hello there." = [] ∧
    parse_and_execute_tool_calls ["terminal"] (fun _ _ => Except.ok "ok")
      "Hello there." = ("Hello there.", []) := by
  exact C5_tool_call_extraction "Hello there." ["terminal"]
    (fun _ _ => Except.ok "ok") (by decide)

theorem escListCL_cons (c : Char) (l : List Char) :
    escListCL (c :: l) = jsonEscapeChar c ++ escListCL l := by
  simp [escListCL]

theorem one_le_escChar (c : Char) : 1 ≤ (jsonEscapeChar c).length := by
  unfold jsonEscapeChar
  split_ifs <;> simp

theorem escList_len : ∀ l : List Char, l.length ≤ (escListCL l).length := by
  intro l
  induction l with
  | nil => simp [escListCL]
  | cons c cs ih =>
    rw [escListCL_cons]
    have := one_le_escChar c
    simp only [List.length_cons, List.length_append]
    omega

theorem hexVal_digit (m : Nat) (hm : m < 16) :
    hexVal (if m < 10 then Char.ofNat (48 + m) else Char.ofNat (87 + m)) = some m := by
  interval_cases m <;> decide

theorem toList_mk (l : List Char) : (String.mk l).toList = l := rfl

theorem mk_toList (s : String) : String.mk s.toList = s := rfl

theorem parse_string_rt : ∀ (l : List Char) (fuel : Nat) (rest : List Char),
    l.length < fuel →
    parseJsonStringAux fuel (escListCL l ++ '"' :: rest) = some (l, rest) := by
  intro l
  induction l with
  | nil =>
    intro fuel rest h
    cases fuel with
    | zero => omega
    | succ f =>
      simp only [escListCL, List.map_nil, List.flatten_nil, List.nil_append]
      simp [parseJsonStringAux]
  | cons c l ih =>
    intro fuel rest h
    cases fuel with
    | zero => omega
    | succ f =>
      have hl : l.length < f := by
        simp only [List.length_cons] at h
        omega
      have hih := ih f rest hl
      rw [escListCL_cons, List.append_assoc]
      by_cases h1 : c = '"'
      · subst h1
        simp [jsonEscapeChar, parseJsonStringAux, hih]
      by_cases h2 : c = '\\'
      · subst h2
        simp [jsonEscapeChar, parseJsonStringAux, hih]
      by_cases h3 : c = Char.ofNat 8
      · subst h3
        simp [jsonEscapeChar, parseJsonStringAux, hih]
      by_cases h4 : c = Char.ofNat 12
      · subst h4
        simp [jsonEscapeChar, parseJsonStringAux, hih]
      by_cases h5 : c = '\n'
      · subst h5
        simp [jsonEscapeChar, parseJsonStringAux, hih]
      by_cases h6 : c = '\r'
      · subst h6
        simp [jsonEscapeChar, parseJsonStringAux, hih]
      by_cases h7 : c = '\t'
      · subst h7
        simp [jsonEscapeChar, parseJsonStringAux, hih]
      have b1 : (c == '"') = false := beq_eq_false_iff_ne.mpr h1
      have b2 : (c == '\\') = false := beq_eq_false_iff_ne.mpr h2
      have b3 : (c == Char.ofNat 8) = false := beq_eq_false_iff_ne.mpr h3
      have b4 : (c == Char.ofNat 12) = false := beq_eq_false_iff_ne.mpr h4
      have b5 : (c == '\n') = false := beq_eq_false_iff_ne.mpr h5
      have b6 : (c == '\r') = false := beq_eq_false_iff_ne.mpr h6
      have b7 : (c == '\t') = false := beq_eq_false_iff_ne.mpr h7
      by_cases hc : c.toNat < 32
      · have hchunk : jsonEscapeChar c =
            ['\\', 'u', '0', '0',
             (if c.toNat / 16 < 10 then Char.ofNat (48 + c.toNat / 16)
              else Char.ofNat (87 + c.toNat / 16)),
             (if c.toNat % 16 < 10 then Char.ofNat (48 + c.toNat % 16)
              else Char.ofNat (87 + c.toNat % 16))] := by
          simp [jsonEscapeChar, b1, b2, b3, b4, b5, b6, b7, hc]
        rw [hchunk]
        have h0 : hexVal '0' = some 0 := by decide
        have hd1 := hexVal_digit (c.toNat / 16) (by omega)
        have hd2 := hexVal_digit (c.toNat % 16) (by omega)
        simp [parseJsonStringAux, h0, hd1, hd2, hih]
        rw [show c.toNat / 16 * 16 + c.toNat % 16 = c.toNat from by omega,
          Char.ofNat_toNat]
      · have hchunk : jsonEscapeChar c = [c] := by
          simp [jsonEscapeChar, b1, b2, b3, b4, b5, b6, b7, hc]
        rw [hchunk]
        simp [parseJsonStringAux, b1, b2, hc, hih]

theorem mk_data (s : String) : String.mk s.data = s := rfl

theorem parse_string_rt_top (l rest : List Char) :
    parseJsonString (escListCL l ++ '"' :: rest) = some (l, rest) := by
  unfold parseJsonString
  refine parse_string_rt l _ rest ?_
  have := escList_len l
  simp only [List.length_append, List.length_cons]
  omega

theorem parseMembers_item_last (kv : String × String) (suffix : List Char) (f : Nat) :
    parseMembersAux (f + 1) (jsonItemCL kv ++ '\n' :: Char.ofNat 125 :: suffix) =
      some ([kv], suffix) := by
  have hb1 : (Char.ofNat 125 == ',') = false := by decide
  have hb2 : (Char.ofNat 125 == Char.ofNat 125) = true := by decide
  simp [parseMembersAux, jsonItemCL, jsonQuoteCL, skipWs, jsonIsWs,
    List.append_assoc, parse_string_rt_top, mk_toList, mk_data, hb1, hb2]

theorem parseMembers_item_cons (kv : String × String) (rest6 : List Char) (f : Nat) :
    parseMembersAux (f + 1) (jsonItemCL kv ++ ',' :: rest6) =
      (parseMembersAux f rest6).map (fun pr => (kv :: pr.1, pr.2)) := by
  have hb1 : ((',' : Char) == ',') = true := by decide
  simp [parseMembersAux, jsonItemCL, jsonQuoteCL, skipWs, jsonIsWs,
    List.append_assoc, parse_string_rt_top, mk_toList, mk_data, hb1]

theorem parseMembersAux_ws_cons (f : Nat) (c : Char) (hc : jsonIsWs c = true)
    (cs : List Char) :
    parseMembersAux (f + 1) (c :: cs) = parseMembersAux (f + 1) cs := by
  have h : skipWs (c :: cs) = skipWs cs := by
    simp [skipWs, List.dropWhile_cons, hc]
  simp only [parseMembersAux]
  rw [h]

theorem members_rt : ∀ (store : List (String × String)) (f : Nat) (suffix : List Char),
    store ≠ [] → store.length ≤ f →
    parseMembersAux f
      (intercalateCL [',', '\n'] (store.map jsonItemCL) ++
        '\n' :: Char.ofNat 125 :: suffix) = some (store, suffix) := by
  intro store
  induction store with
  | nil => intro f suffix hne _; exact absurd rfl hne
  | cons kv store' ih =>
    intro f suffix _ hlen
    cases f with
    | zero => simp at hlen
    | succ f =>
      cases store' with
      | nil =>
        simp only [List.map_cons, List.map_nil, intercalateCL]
        exact parseMembers_item_last kv suffix f
      | cons kv2 store'' =>
        have hlen' : (kv2 :: store'').length ≤ f := by
          simp only [List.length_cons] at hlen ⊢
          omega
        simp only [List.map_cons, intercalateCL]
        rw [show (jsonItemCL kv ++ [',', '\n'] ++
            intercalateCL [',', '\n'] (jsonItemCL kv2 :: store''.map jsonItemCL)) ++
            '\n' :: Char.ofNat 125 :: suffix =
          jsonItemCL kv ++ ',' :: ('\n' ::
            (intercalateCL [',', '\n'] (jsonItemCL kv2 :: store''.map jsonItemCL) ++
              '\n' :: Char.ofNat 125 :: suffix)) from by simp]
        rw [parseMembers_item_cons]
        cases f with
        | zero => simp at hlen'
        | succ f2 =>
          rw [parseMembersAux_ws_cons f2 '\n' (by decide)]
          have hrec := ih (f2 + 1) suffix (by simp) hlen'
          simp only [List.map_cons] at hrec
          rw [hrec]
          rfl

theorem inter_len : ∀ store : List (String × String),
    store.length ≤ (intercalateCL [',', '\n'] (store.map jsonItemCL)).length := by
  intro store
  induction store with
  | nil => simp [intercalateCL]
  | cons kv store' ih =>
    cases store' with
    | nil => simp [intercalateCL, jsonItemCL]
    | cons kv2 store'' =>
      simp only [List.map_cons, intercalateCL, List.length_append,
        List.length_cons] at ih ⊢
      have : 2 ≤ (jsonItemCL kv).length := by simp [jsonItemCL]
      omega

theorem parseMembers_dump (store : List (String × String)) (hne : store ≠ []) :
    parseMembers ('\n' ::
      (intercalateCL [',', '\n'] (store.map jsonItemCL) ++
        ['\n', Char.ofNat 125])) = some (store, []) := by
  unfold parseMembers
  rw [show ('\n' :: (intercalateCL [',', '\n'] (store.map jsonItemCL) ++
      ['\n', Char.ofNat 125])).length + 1 =
    (intercalateCL [',', '\n'] (store.map jsonItemCL) ++
      ['\n', Char.ofNat 125]).length + 1 + 1 from by simp]
  rw [parseMembersAux_ws_cons _ '\n' (by decide)]
  exact members_rt store _ [] hne (by
    have := inter_len store
    simp only [List.length_append, List.length_cons, List.length_nil]
    omega)

theorem jsonParseObject_dump (store : List (String × String)) :
    jsonParseObject (jsonDumpIndent2CL store) = some store := by
  cases store with
  | nil => rfl
  | cons kv store' =>
    have hw0 : jsonIsWs (Char.ofNat 123) = false := by decide
    have hb0 : ((Char.ofNat 123 : Char) == Char.ofNat 123) = true := by decide
    have hbq : (('"' : Char) == Char.ofNat 125) = false := by decide
    have hmem := parseMembers_dump (kv :: store') (by simp)
    cases store' with
    | nil =>
      simp only [List.map_cons, List.map_nil, intercalateCL] at hmem
      simp [jsonItemCL, jsonQuoteCL, List.append_assoc] at hmem
      simp [jsonDumpIndent2CL, jsonParseObject, skipWs, jsonIsWs, hw0, hb0, hbq,
        hmem, jsonItemCL, jsonQuoteCL, intercalateCL]
    | cons kv2 store'' =>
      simp only [List.map_cons, intercalateCL] at hmem
      simp [jsonItemCL, jsonQuoteCL, List.append_assoc] at hmem
      simp [jsonDumpIndent2CL, jsonParseObject, skipWs, jsonIsWs, hw0, hb0, hbq,
        hmem, jsonItemCL, jsonQuoteCL, intercalateCL]

theorem pyStripCL_sandwich (a b : Char) (mid : List Char)
    (ha : pyIsSpace a = false) (hb : pyIsSpace b = false) :
    pyStripCL (a :: (mid ++ [b])) = a :: (mid ++ [b]) := by
  have h1 : List.dropWhile pyIsSpace (a :: (mid ++ [b])) = a :: (mid ++ [b]) := by
    simp [List.dropWhile_cons, ha]
  have h2 : (a :: (mid ++ [b])).reverse = b :: (a :: mid).reverse := by
    rw [show a :: (mid ++ [b]) = (a :: mid) ++ [b] from rfl, List.reverse_append]
    simp
  have h3 : List.dropWhile pyIsSpace (b :: (a :: mid).reverse) =
      b :: (a :: mid).reverse := by
    simp [List.dropWhile_cons, hb]
  unfold pyStripCL
  rw [h1, h2, h3, ← h2, List.reverse_reverse]

theorem pyStripCL_dump (store : List (String × String)) :
    pyStripCL (jsonDumpIndent2CL store) = jsonDumpIndent2CL store := by
  have hb0 : pyIsSpace (Char.ofNat 123) = false := by decide
  have hb1 : pyIsSpace (Char.ofNat 125) = false := by decide
  cases store with
  | nil => exact pyStripCL_sandwich _ _ [] hb0 hb1
  | cons kv rest =>
    have hshape : jsonDumpIndent2CL (kv :: rest) =
        Char.ofNat 123 ::
          (('\n' :: (intercalateCL [',', '\n'] ((kv :: rest).map jsonItemCL) ++
            ['\n'])) ++ [Char.ofNat 125]) := by
      simp [jsonDumpIndent2CL, List.append_assoc]
    rw [hshape]
    exact pyStripCL_sandwich _ _ _ hb0 hb1

theorem pyStrip_dump (store : List (String × String)) :
    pyStrip (save_long_term_memory store) = save_long_term_memory store := by
  unfold pyStrip save_long_term_memory
  rw [toList_mk, pyStripCL_dump]

theorem dump_ne_empty (store : List (String × String)) :
    save_long_term_memory store ≠ "" := by
  unfold save_long_term_memory
  intro h
  have hdata : (String.mk (jsonDumpIndent2CL store)).data = ("" : String).data := by
    rw [h]
  simp only [String.data] at hdata
  cases store <;> simp [jsonDumpIndent2CL] at hdata

theorem dictInsert_append (d : List (String × String)) (k v : String)
    (h : ∀ p ∈ d, p.1 ≠ k) : dictInsert d k v = d ++ [(k, v)] := by
  induction d with
  | nil => rfl
  | cons p rest ih =>
    obtain ⟨k0, v0⟩ := p
    have hk : k0 ≠ k := by simpa using h (k0, v0) (by simp)
    simp only [dictInsert, hk, if_false, List.cons_append]
    rw [ih (fun q hq => h q (by simp [hq]))]

theorem foldl_dictInsert (pairs : List (String × String)) :
    ∀ acc : List (String × String),
      ((acc ++ pairs).map Prod.fst).Nodup →
      pairs.foldl (fun d kv => dictInsert d kv.1 kv.2) acc = acc ++ pairs := by
  induction pairs with
  | nil => intro acc _; simp
  | cons kv ps ih =>
    intro acc h
    have hk : ∀ p ∈ acc, p.1 ≠ kv.1 := by
      intro p hp heq
      have h2 := h
      rw [List.map_append] at h2
      have hd := (List.nodup_append.mp h2).2.2
      exact hd (List.mem_map_of_mem Prod.fst hp) (by simp [heq])
    rw [List.foldl_cons, dictInsert_append acc kv.1 kv.2 hk,
      show acc ++ [(kv.1, kv.2)] = acc ++ [kv] from by simp,
      ih (acc ++ [kv]) (by simpa [List.append_assoc] using h)]
    simp

/-- C8: saving any long-term store (a string-to-string mapping, so its
keys are distinct) and loading it through a fresh manager yields the same
mapping; a missing file loads as the empty store, an empty file loads as
the empty store, and malformed contents produce the fatal memory
error. -/
theorem C8_long_term_round_trip (store : List (String × String))
    (hnd : (store.map Prod.fst).Nodup) :
    load_long_term_memory (some (save_long_term_memory store)) = .ok store ∧
    load_long_term_memory none = .ok [] ∧
    load_long_term_memory (some "") = .ok [] ∧
    load_long_term_memory (some "not json") =
      .error "Corrupted long-term memory file" := by
  refine ⟨?_, rfl, rfl, rfl⟩
  show (if pyStrip (save_long_term_memory store) = "" then Except.ok []
    else
      match jsonParseObject (pyStrip (save_long_term_memory store)).toList with
      | some pairs =>
        Except.ok (pairs.foldl (fun d kv => dictInsert d kv.1 kv.2) [])
      | none => Except.error "Corrupted long-term memory file") = Except.ok store
  rw [pyStrip_dump, if_neg (dump_ne_empty store),
    show (save_long_term_memory store).toList = jsonDumpIndent2CL store from rfl,
    jsonParseObject_dump]
  show Except.ok (store.foldl (fun d kv => dictInsert d kv.1 kv.2) []) =
    Except.ok store
  rw [foldl_dictInsert store [] (by simpa using hnd)]
  rfl

/-- Closed instance of C8 at a two-entry store whose values exercise the
escape path. -/
theorem C8_long_term_round_trip_witness :
    load_long_term_memory
      (some (save_long_term_memory
        [("user_name", "Alice"), ("note", "line1\nline2")])) =
      .ok [("user_name", "Alice"), ("note", "line1\nline2")] ∧
    load_long_term_memory none = .ok [] ∧
    load_long_term_memory (some "") = .ok [] ∧
    load_long_term_memory (some "not json") =
      .error "Corrupted long-term memory file" :=
  C8_long_term_round_trip [("user_name", "Alice"), ("note", "line1\nline2")]
    (by decide)
